import Mathlib

/-!
Shallow embedding of the `invoke_impl` attribute macro (src/lib.rs) and a
verification of its synthesis pipeline: signature validation, parameter
forwarding with selective cloning, generation of the six dispatcher bodies,
tag-enum construction with bidirectional string conversion, the metadata
constants, and attribute-argument parsing.

The syntax-tree model mirrors the `syn` data the macro actually inspects;
the generated dispatcher bodies are given a small-step trace semantics so
that invocation order, callback order and panic behaviour can be stated.
-/

deriving instance DecidableEq for Except

namespace InvokeImpl

/-- Rust types as far as the macro compares them (purely structural equality). -/
inductive Ty
  | unit
  | path (name : String)
  | ref (inner : Ty)
deriving DecidableEq

/-- Parameter patterns: the macro distinguishes identifier patterns (forwarded
by name) from everything else (dropped by the second `filter_map`). -/
inductive Pat
  | ident (name : String)
  | wild
deriving DecidableEq

/-- A typed (non-receiver) function argument: `pat : ty`. -/
structure PatType where
  pat : Pat
  ty : Ty
deriving DecidableEq

/-- The `self` receiver. `reference = true` models `&self` / `&mut self`
(`receiver.reference.is_some()` in the source); `reference = false` is a
by-value `self`. -/
structure Receiver where
  reference : Bool
  mutability : Bool
deriving DecidableEq

/-- One entry of `Signature.inputs`, mirroring `syn::FnArg`. -/
inductive FnArg
  | receiver (r : Receiver)
  | typed (pt : PatType)
deriving DecidableEq

/-- Return type of a callable, mirroring `syn::ReturnType`: either omitted
(`Default`) or an explicit `-> T`. -/
inductive ReturnType
  | default
  | ty (t : Ty)
deriving DecidableEq

/-- Declared generic parameter, mirroring `syn::GenericParam`; only type
parameters are forwarded by the macro. -/
inductive GenericParam
  | typeParam (ident : String) (bounds : List String)
  | lifetime (name : String)
  | constParam (name : String)
deriving DecidableEq

/-- Function signature, mirroring the fields of `syn::Signature` the macro
reads and compares. -/
structure Signature where
  ident : String
  generics : List GenericParam
  inputs : List FnArg
  output : ReturnType
deriving DecidableEq

/-- Item visibility (part of an `ImplItemMethod`, compared by the validator). -/
inductive Visibility
  | public
  | inherited
deriving DecidableEq

/-- One method of the impl block, mirroring the fields of
`syn::ImplItemMethod` that take part in the validator's structural equality:
attributes (doc comments), visibility, defaultness, signature and body. -/
structure ImplItemMethod where
  attrs : List String
  vis : Visibility
  defaultness : Bool
  sig : Signature
  block : List String
deriving DecidableEq

/-- The comparison normal form used by `validate_signatures`: the signature
ident is replaced by the fixed ident `name`, attributes are discarded and the
body is replaced by an empty block.  Everything else is kept. -/
def normalize_method (m : ImplItemMethod) : ImplItemMethod :=
  { m with sig := { m.sig with ident := "name" }, attrs := [], block := [] }

/-- `validate_signatures` from the source: compare every method against the
base method after normalisation; `true` means the macro does not panic. -/
def validate_signatures (base : ImplItemMethod) (methods : List ImplItemMethod) : Bool :=
  methods.all fun m => decide (normalize_method m = normalize_method base)

/-- `SpecificationType` from the source. -/
inductive SpecificationType
  | Enum
  | Enumerated
deriving DecidableEq

/-- `InvokeType` from the source. -/
inductive InvokeType
  | Specified (st : SpecificationType)
  | SpecifiedAll (st : SpecificationType)
  | Subset
  | All
deriving DecidableEq

/-- `generate_invoke_name` from the source. -/
def generate_invoke_name (name : Option String) (invoke_type : InvokeType) : String :=
  let base_string :=
    match invoke_type with
    | .Specified .Enum => "invoke_enum"
    | .Specified .Enumerated => "invoke_enumerated"
    | .SpecifiedAll .Enum => "invoke_all_enum"
    | .SpecifiedAll .Enumerated => "invoke_all_enumerated"
    | .All => "invoke_all"
    | .Subset => "invoke_subset"
  match name with
  | some name_s => base_string ++ "_" ++ name_s
  | none => base_string

/-- `generate_enum_name` from the source. -/
def generate_enum_name (struct_ident : String) (name : Option String) : String :=
  match name with
  | some n => struct_ident ++ "_invoke_impl_enum_" ++ n
  | none => struct_ident ++ "_invoke_impl_enum"

/-- `generate_trailing_return_type` from the source: the parse of `-> ()`. -/
def generate_trailing_return_type : ReturnType := ReturnType.ty Ty.unit

/-- The repeated source condition
`output_type != generate_trailing_return_type() && output_type != ReturnType::Default`:
`true` exactly when the methods have a real (non-void) return type. -/
def nonVoidOutput (o : ReturnType) : Bool :=
  decide (o ≠ generate_trailing_return_type) && decide (o ≠ ReturnType.default)

/-- An argument expression forwarded to a member call: either `#id` or
`#id.clone()`. -/
inductive ArgExpr
  | forward (id : String)
  | cloned (id : String)
deriving DecidableEq

/-- Single left-to-right pass of the `param_ids` computation inside
`create_invoke_function`: `idx` is the running `enumerate()` index over all
inputs (receiver included), `isM` the `is_method` flag accumulated so far.
A by-value receiver reproduces the source panic as an `Except.error`. -/
def paramIdsGo (clone : Option (List Nat)) :
    Nat → Bool → List FnArg → Except String (Bool × List ArgExpr)
  | _, isM, [] => .ok (isM, [])
  | idx, _isM, FnArg.receiver r :: rest =>
    if r.reference then paramIdsGo clone (idx + 1) true rest
    else .error "invoke_impl cannot be used with methods taking self as move!"
  | idx, isM, FnArg.typed pt :: rest =>
    match pt.pat with
    | Pat.ident id =>
      let e :=
        match clone with
        | some hs => if hs.contains idx then ArgExpr.cloned id else ArgExpr.forward id
        | none => ArgExpr.forward id
      (paramIdsGo clone (idx + 1) isM rest).map fun pr => (pr.1, e :: pr.2)
    | Pat.wild => paramIdsGo clone (idx + 1) isM rest

/-- The `param_ids` / `is_method` computation of `create_invoke_function`
(lines 405-442 of the source): enumerate the signature inputs, record whether
a by-reference receiver exists, panic on a by-value receiver, and map each
identifier parameter to a forwarded or cloned argument expression depending on
membership of its enumeration index in the clone set. -/
def compute_param_ids (clone : Option (List Nat)) (inputs : List FnArg) :
    Except String (Bool × List ArgExpr) :=
  paramIdsGo clone 0 false inputs

/-- The `generic_params` extraction of `create_invoke_function`: identifiers
of the declared type parameters, in order. -/
def genericIdents (base : ImplItemMethod) : List String :=
  base.sig.generics.filterMap fun gp =>
    match gp with
    | GenericParam.typeParam id _ => some id
    | _ => none

/-- A synthesized member call expression, the result of
`get_inner_call_expr`: either `self.method::<gps>(args)` (bound) or
`Struct::method::<gps>(args)` (free). -/
structure InnerCall where
  bound : Bool
  callee : String
  method : String
  generics : List String
  args : List ArgExpr
deriving DecidableEq

/-- `get_inner_call_expr` from the source. -/
def get_inner_call_expr (is_method : Bool) (method : ImplItemMethod)
    (struct_ident : String) (generic_params : List String)
    (param_ids : List ArgExpr) : InnerCall :=
  { bound := is_method, callee := struct_ident, method := method.sig.ident,
    generics := generic_params, args := param_ids }

/-- Tag expression passed to the consumer closure: a `usize` literal for the
Enumerated axis or `EnumName::variant` for the Enum axis. -/
inductive TagExpr
  | index (i : Nat)
  | enumVariant (enumName : String) (variant : String)
deriving DecidableEq

/-- One generated statement: a bare member call `inner;`, or a consumer call
`consumer(tag?, inner?)` (tag and forwarded result each optional, matching the
shapes the source emits). -/
inductive GStmt
  | exec (c : InnerCall)
  | consume (tag : Option TagExpr) (arg : Option InnerCall)
deriving DecidableEq

/-- A generated dispatcher body: either a straight statement list (All scope)
or a `for`-loop over the selector iterator whose body is a `match` with one
arm per member plus, when `hasDefault`, the panicking `_` arm (CallerSpecified
scope). Arm `i` is the arm selected by selector value `i`. -/
inductive GBody
  | straight (stmts : List GStmt)
  | loopMatch (arms : List (List GStmt)) (hasDefault : Bool)
deriving DecidableEq

/-- `invoke_all_block` from the source: one statement per method in
declaration order; with a return type the call is wrapped in `consumer(...)`,
otherwise the bare call is emitted. -/
def invoke_all_block (is_method : Bool) (output_type : ReturnType)
    (methods : List ImplItemMethod) (struct_ident : String)
    (generic_params : List String) (param_ids : List ArgExpr) : GBody :=
  GBody.straight (methods.map fun m =>
    let inner := get_inner_call_expr is_method m struct_ident generic_params param_ids
    if nonVoidOutput output_type then GStmt.consume none (some inner)
    else GStmt.exec inner)

/-- `invoke_some_block` from the source: a loop over the selector iterator
with one match arm per method (arm index = selector value) and a panicking
default arm. -/
def invoke_some_block (is_method : Bool) (output_type : ReturnType)
    (methods : List ImplItemMethod) (struct_ident : String)
    (generic_params : List String) (param_ids : List ArgExpr) : GBody :=
  GBody.loopMatch
    (methods.map fun m =>
      let inner := get_inner_call_expr is_method m struct_ident generic_params param_ids
      [if nonVoidOutput output_type then GStmt.consume none (some inner)
       else GStmt.exec inner])
    true

/-- The enumerated statement generation of `invoke_all_enum_block`: `idx` is
the running `enumerate()` index. With a return type a single
`consumer(tag, call)` statement is emitted per method; in the void case the
bare call is emitted first and then `consumer(tag)`. -/
def allEnumStmts (is_method : Bool) (st : SpecificationType)
    (output_type : ReturnType) (enum_name struct_ident : String)
    (generic_params : List String) (param_ids : List ArgExpr) :
    Nat → List ImplItemMethod → List GStmt
  | _, [] => []
  | idx, m :: rest =>
    let inner := get_inner_call_expr is_method m struct_ident generic_params param_ids
    let tag : TagExpr :=
      match st with
      | .Enum => TagExpr.enumVariant enum_name m.sig.ident
      | .Enumerated => TagExpr.index idx
    (if nonVoidOutput output_type then [GStmt.consume (some tag) (some inner)]
     else [GStmt.exec inner, GStmt.consume (some tag) none]) ++
      allEnumStmts is_method st output_type enum_name struct_ident generic_params
        param_ids (idx + 1) rest

/-- `invoke_all_enum_block` from the source (bodies of `invoke_all_enum` and
`invoke_all_enumerated`). -/
def invoke_all_enum_block (is_method : Bool) (st : SpecificationType)
    (output_type : ReturnType) (methods : List ImplItemMethod)
    (struct_ident : String) (name : Option String)
    (generic_params : List String) (param_ids : List ArgExpr) : GBody :=
  GBody.straight
    (allEnumStmts is_method st output_type (generate_enum_name struct_ident name)
      struct_ident generic_params param_ids 0 methods)

/-- The match-arm generation of `invoke_enum_block`: arm `idx` handles
selector value `idx` (the `usize` literal, resp. the enum variant with that
discriminant). -/
def enumArms (is_method : Bool) (st : SpecificationType)
    (output_type : ReturnType) (enum_name struct_ident : String)
    (generic_params : List String) (param_ids : List ArgExpr) :
    Nat → List ImplItemMethod → List (List GStmt)
  | _, [] => []
  | idx, m :: rest =>
    let inner := get_inner_call_expr is_method m struct_ident generic_params param_ids
    let tag : TagExpr :=
      match st with
      | .Enum => TagExpr.enumVariant enum_name m.sig.ident
      | .Enumerated => TagExpr.index idx
    (if nonVoidOutput output_type then [GStmt.consume (some tag) (some inner)]
     else [GStmt.exec inner, GStmt.consume (some tag) none]) ::
      enumArms is_method st output_type enum_name struct_ident generic_params
        param_ids (idx + 1) rest

/-- `invoke_enum_block` from the source (bodies of `invoke_enum` and
`invoke_enumerated`): a loop over the selector iterator with one match arm per
member; the panicking default arm is added only for the Enumerated (usize)
axis, the enum match being exhaustive. -/
def invoke_enum_block (is_method : Bool) (st : SpecificationType)
    (output_type : ReturnType) (methods : List ImplItemMethod)
    (struct_ident : String) (name : Option String)
    (generic_params : List String) (param_ids : List ArgExpr) : GBody :=
  GBody.loopMatch
    (enumArms is_method st output_type (generate_enum_name struct_ident name)
      struct_ident generic_params param_ids 0 methods)
    (match st with
     | .Enum => false
     | .Enumerated => true)

/-- Type of a consumer-closure argument or iterator element in a generated
signature. -/
inductive ConsTy
  | usize
  | enumType (name : String)
  | retType (t : Ty)
deriving DecidableEq

/-- A parameter of a generated dispatcher: an original input, the `consumer`
closure (with its argument types), or the `invoke_impl_iter` selector iterator
(with its element type). -/
inductive GenParam
  | original (arg : FnArg)
  | consumer (tys : List ConsTy)
  | iter (elem : ConsTy)
deriving DecidableEq

/-- The consumer-closure parameter appended by `create_invoke_function`
(lines 459-499 of the source), as a function of the invoke type and output
type.  The `.error` branch reproduces the unreachable source panic. -/
def consumer_param (enum_name : String) (invoke_type : InvokeType)
    (output_type : ReturnType) : Except String (Option GenParam) :=
  if nonVoidOutput output_type then
    match output_type with
    | ReturnType.ty bxtype =>
      .ok (some (GenParam.consumer
        (match invoke_type with
         | .Specified .Enum | .SpecifiedAll .Enum =>
           [ConsTy.enumType enum_name, ConsTy.retType bxtype]
         | .Specified .Enumerated | .SpecifiedAll .Enumerated =>
           [ConsTy.usize, ConsTy.retType bxtype]
         | .All | .Subset => [ConsTy.retType bxtype])))
    | ReturnType.default =>
      .error "Should not detect an empty return after the if statement!"
  else
    .ok (match invoke_type with
      | .Specified .Enum | .SpecifiedAll .Enum =>
        some (GenParam.consumer [ConsTy.enumType enum_name])
      | .Specified .Enumerated | .SpecifiedAll .Enumerated =>
        some (GenParam.consumer [ConsTy.usize])
      | .Subset | .All => none)

/-- The selector-iterator parameter appended by `create_invoke_function`
(lines 501-519 of the source). -/
def specifier_param (enum_name : String) : InvokeType → Option GenParam
  | .Specified .Enum => some (GenParam.iter (ConsTy.enumType enum_name))
  | .Specified .Enumerated => some (GenParam.iter ConsTy.usize)
  | .Subset => some (GenParam.iter ConsTy.usize)
  | .SpecifiedAll _ => none
  | .All => none

/-- The body dispatch of `create_invoke_function` (lines 525-567). -/
def invoke_body (invoke_type : InvokeType) (is_method : Bool)
    (output_type : ReturnType) (methods : List ImplItemMethod)
    (struct_ident : String) (name : Option String)
    (generic_params : List String) (param_ids : List ArgExpr) : GBody :=
  match invoke_type with
  | .Specified st =>
    invoke_enum_block is_method st output_type methods struct_ident name
      generic_params param_ids
  | .SpecifiedAll st =>
    invoke_all_enum_block is_method st output_type methods struct_ident name
      generic_params param_ids
  | .Subset =>
    invoke_some_block is_method output_type methods struct_ident
      generic_params param_ids
  | .All =>
    invoke_all_block is_method output_type methods struct_ident
      generic_params param_ids

/-- A generated dispatcher: its identifier, full parameter list (original
inputs, then the optional consumer closure, then the optional selector
iterator) and body. -/
structure GeneratedFn where
  ident : String
  inputs : List GenParam
  body : GBody
deriving DecidableEq

/-- `create_invoke_function` from the source.  The two `Except` stages are the
two panics the source can hit while building the signature: the by-value
receiver panic inside the `param_ids` computation, and the unreachable
empty-return panic in the consumer branch. -/
def create_invoke_function (base : ImplItemMethod) (methods : List ImplItemMethod)
    (struct_ident : String) (invoke_type : InvokeType) (name : Option String)
    (clone : Option (List Nat)) : Except String GeneratedFn :=
  match compute_param_ids clone base.sig.inputs with
  | .error e => .error e
  | .ok (is_method, param_ids) =>
    match consumer_param (generate_enum_name struct_ident name) invoke_type
        base.sig.output with
    | .error e => .error e
    | .ok consumer =>
      .ok
        { ident := generate_invoke_name name invoke_type,
          inputs := base.sig.inputs.map GenParam.original ++ consumer.toList ++
            (specifier_param (generate_enum_name struct_ident name) invoke_type).toList,
          body := invoke_body invoke_type is_method base.sig.output methods
            struct_ident name (genericIdents base) param_ids }

/-- The synthesized tag enum, as produced by `create_enum`: its name and its
variant identifiers in declaration order (discriminant `d` is variant
`variants[d]`). -/
structure EnumModel where
  name : String
  variants : List String
deriving DecidableEq

/-- `create_enum` from the source: one variant per method, named after the
method identifier, in declaration order. -/
def create_enum (methods : List ImplItemMethod) (struct_ident : String)
    (name : Option String) : EnumModel :=
  { name := generate_enum_name struct_ident name,
    variants := methods.map fun im => im.sig.ident }

/-- The generated `TryFrom<&str>` impl: match the input string against the
variant-name literals in declaration order, returning the discriminant of the
first match, with a default error arm. -/
def enum_try_from : List String → String → Except String Nat
  | [], _ => .error "Input str does not match any enums in Self!"
  | n :: rest, value =>
    if value = n then .ok 0
    else (enum_try_from rest value).map fun d => d + 1

/-- The generated `From<Enum> for &str` impl: discriminant `d` maps to the
name of variant `d`. -/
def enum_into_str (variants : List String) (d : Nat) : Option String :=
  variants.get? d

/-- The two const items appended by `invoke_impl` (lines 313-332 of the
source). -/
structure MetadataConsts where
  countIdent : String
  countValue : Nat
  listIdent : String
  listValue : List String
deriving DecidableEq

/-- The metadata-emission step of `invoke_impl`: `METHOD_COUNT` (with optional
name suffix) is the method count, `METHOD_LIST` the method identifiers in
declaration order. -/
def invoke_impl_metadata (name : Option String)
    (methods : List ImplItemMethod) : MetadataConsts :=
  { countIdent :=
      match name with
      | some s => "METHOD_COUNT_" ++ s
      | none => "METHOD_COUNT",
    countValue := methods.length,
    listIdent :=
      match name with
      | some s => "METHOD_LIST_" ++ s
      | none => "METHOD_LIST",
    listValue := methods.map fun iim => iim.sig.ident }

/-- Nested meta item inside an attribute argument, mirroring
`syn::NestedMeta` as far as `parse_args` inspects it. -/
inductive NestedMeta
  | meta
  | litStr (s : String)
  | litInt (n : Nat)
  | litOther
deriving DecidableEq

/-- One `key(...)` group of the attribute arguments, mirroring
`syn::MetaList`: the path identifier and the nested items. -/
structure MetaList where
  path : String
  nested : List NestedMeta
deriving DecidableEq

/-- ASCII lowercasing of one character, modelling `str::to_lowercase` on the
identifier characters the macro compares. -/
def charToLower (c : Char) : Char :=
  if 'A' ≤ c ∧ c ≤ 'Z' then Char.ofNat (c.toNat + 32) else c

/-- Lowercasing of an identifier string (model of `to_string().to_lowercase()`
in `parse_args`). -/
def strToLower (s : String) : String :=
  String.mk (s.data.map charToLower)

/-- The argument collection of the `clone` branch of `parse_args`: every
nested item must be an integer literal; insertion into the `HashSet` is
modelled as first-occurrence-preserving list insertion. -/
def collectCloneArgs : List Nat → List NestedMeta → Except String (List Nat)
  | acc, [] => .ok acc
  | acc, NestedMeta.litInt n :: rest =>
    collectCloneArgs (if acc.contains n then acc else acc ++ [n]) rest
  | _, NestedMeta.meta :: _ => .error "Arguments to clone must be literal ints!"
  | _, NestedMeta.litStr _ :: _ => .error "Arguments to clone must be literal ints!"
  | _, NestedMeta.litOther :: _ => .error "Arguments to clone must be literal ints!"

/-- The per-argument loop of `parse_args`: each group's path identifier is
lowercased and compared against `name` and `clone`; duplicate options and
malformed payloads panic, any other key panics. -/
def parseArgsLoop :
    Option String × Option (List Nat) → List MetaList →
    Except String (Option String × Option (List Nat))
  | res, [] => .ok res
  | res, arg :: rest =>
    if strToLower arg.path = "name" then
      if res.1.isSome then .error "Argument name passed to invoke_impl twice!"
      else if arg.nested.length ≠ 1 then
        .error "There can only be a single literal str argument to name!"
      else
        match arg.nested with
        | [NestedMeta.litStr s] => parseArgsLoop (some s, res.2) rest
        | _ => .error "There can only be a single literal str argument to name!"
    else if strToLower arg.path = "clone" then
      if res.2.isSome then .error "Argument clone passed to invoke_impl twice!"
      else
        match collectCloneArgs [] arg.nested with
        | .error e => .error e
        | .ok l => parseArgsLoop (res.1, some l) rest
    else .error "The only valid arguments to invoke_impl are name and clone!"

/-- `parse_args` from the source: no arguments yields the defaults, one or two
argument groups are folded through `parseArgsLoop`, more than two panic. -/
def parse_args (args : List MetaList) :
    Except String (Option String × Option (List Nat)) :=
  if args.isEmpty then .ok (none, none)
  else if args.length = 1 ∨ args.length = 2 then parseArgsLoop (none, none) args
  else
    .error "invoke_impl currently only supports args name and clone in the format #[invoke-impl(name(\"name\"); clone(2, 3, 4)], and more than two args were passed in!"

/-- Observable event of running a generated dispatcher body: a member
invocation, or a call of the `consumer` closure with its optional tag and
optional forwarded member result (interpreted in `V`). -/
inductive Ev (V : Type)
  | invoke (method : String)
  | callback (tag : Option TagExpr) (val : Option V)
deriving DecidableEq

/-- Trace of one generated statement.  Rust evaluates the arguments of
`consumer(...)` first, so a wrapped member call is invoked before the
callback fires; `interp` gives the value a member call evaluates to. -/
def runStmt {V : Type} (interp : InnerCall → V) : GStmt → List (Ev V)
  | GStmt.exec c => [Ev.invoke c.method]
  | GStmt.consume tag none => [Ev.callback tag none]
  | GStmt.consume tag (some c) => [Ev.invoke c.method, Ev.callback tag (some (interp c))]

/-- Trace of a generated statement list, in order. -/
def runStmts {V : Type} (interp : InnerCall → V) : List GStmt → List (Ev V)
  | [] => []
  | s :: rest => runStmt interp s ++ runStmts interp rest

/-- Trace semantics of the selector loop: selectors are consumed one at a
time in order; a selector with a match arm runs that arm, a selector with no
arm stops the whole call (the panicking default arm, resp. the impossible
non-exhaustive enum match), discarding nothing already produced. -/
def runLoop {V : Type} (interp : InnerCall → V) (arms : List (List GStmt))
    (hasDefault : Bool) : List Nat → List (Ev V) × Option String
  | [] => ([], none)
  | s :: rest =>
    match arms.get? s with
    | some arm =>
      let pr := runLoop interp arms hasDefault rest
      (runStmts interp arm ++ pr.1, pr.2)
    | none =>
      ([], some (if hasDefault then "Iter contains invalid function index!"
                 else "non-exhaustive match"))

/-- Trace semantics of a generated dispatcher body.  All-scope bodies ignore
the selector list (those dispatchers take no selector parameter). -/
def runBody {V : Type} (interp : InnerCall → V) (body : GBody)
    (selectors : List Nat) : List (Ev V) × Option String :=
  match body with
  | GBody.straight stmts => (runStmts interp stmts, none)
  | GBody.loopMatch arms hasDefault => runLoop interp arms hasDefault selectors

/-- The member invocations of a trace, in order. -/
def invokedMethods {V : Type} : List (Ev V) → List String
  | [] => []
  | Ev.invoke m :: rest => m :: invokedMethods rest
  | Ev.callback _ _ :: rest => invokedMethods rest

/-- The member calls syntactically contained in one generated statement. -/
def stmtCalls : GStmt → List InnerCall
  | GStmt.exec c => [c]
  | GStmt.consume _ none => []
  | GStmt.consume _ (some c) => [c]

/-- All member calls contained in a statement list. -/
def stmtsCalls : List GStmt → List InnerCall
  | [] => []
  | s :: rest => stmtCalls s ++ stmtsCalls rest

/-- All member calls syntactically contained in a generated body. -/
def bodyCalls : GBody → List InnerCall
  | GBody.straight stmts => stmtsCalls stmts
  | GBody.loopMatch arms _ => arms.flatMap stmtsCalls

/-- Signature Shape following the specification text: ordered parameter
types, receiver marker, generic-parameter constraints and return shape, with
identifier and documentation stripped out.  Used to compare the validator's
actual behaviour against the specified one. -/
structure SpecSignatureShape where
  paramTypes : List Ty
  receiverMarker : Option Receiver
  generics : List GenericParam
  output : ReturnType
deriving DecidableEq

/-- The Signature Shape of a member, per the specification's words. -/
def specShapeOf (m : ImplItemMethod) : SpecSignatureShape :=
  { paramTypes := m.sig.inputs.filterMap fun a =>
      match a with
      | FnArg.typed pt => some pt.ty
      | _ => none,
    receiverMarker := m.sig.inputs.findSome? fun a =>
      match a with
      | FnArg.receiver r => some r
      | _ => none,
    generics := m.sig.generics,
    output := m.sig.output }

/-- The forwarding policy as a standalone list transformer: parameter
identifier `id` at enumeration index `i` (starting from `start`) becomes
`id.clone()` when `i` is in the clone set and `id` otherwise — the
per-element expression of `paramIdsGo`. -/
def forwardSpec (clone : Option (List Nat)) : Nat → List String → List ArgExpr
  | _, [] => []
  | i, id :: rest =>
    (match clone with
     | some hs => if hs.contains i then ArgExpr.cloned id else ArgExpr.forward id
     | none => ArgExpr.forward id) :: forwardSpec clone (i + 1) rest

/-- The `i32` type of the crate's running example. -/
def tyI32 : Ty := Ty.path "i32"

/-- A test method `pub fn nm(i: i32) -> i32 { i }`, as in the crate's doc
example. -/
def mkTestMethod (nm : String) : ImplItemMethod :=
  { attrs := [], vis := Visibility.public, defaultness := false,
    sig := { ident := nm, generics := [],
             inputs := [FnArg.typed ⟨Pat.ident "i", tyI32⟩],
             output := ReturnType.ty tyI32 },
    block := ["i"] }

/-- The three-member declaration group of the crate's doc example. -/
def testMethods : List ImplItemMethod :=
  [mkTestMethod "fn1", mkTestMethod "fn2", mkTestMethod "fn3"]

/-- A test method with no return type (void shape). -/
def voidTestMethod : ImplItemMethod :=
  { mkTestMethod "fn1" with
    sig := { (mkTestMethod "fn1").sig with output := ReturnType.default } }

/-- A test method taking `&self` and one `i32` parameter. -/
def selfRefTestMethod : ImplItemMethod :=
  { mkTestMethod "fn1" with
    sig := { (mkTestMethod "fn1").sig with
      inputs := [FnArg.receiver ⟨true, false⟩, FnArg.typed ⟨Pat.ident "i", tyI32⟩] } }

/-- A test method taking `self` by value. -/
def moveSelfTestMethod : ImplItemMethod :=
  { mkTestMethod "fn1" with
    sig := { (mkTestMethod "fn1").sig with
      inputs := [FnArg.receiver ⟨false, false⟩, FnArg.typed ⟨Pat.ident "i", tyI32⟩] } }

/-- A test method identical to `mkTestMethod "fn2"` except that its parameter
is named `j` instead of `i`. -/
def paramRenamedTestMethod : ImplItemMethod :=
  { mkTestMethod "fn2" with
    sig := { (mkTestMethod "fn2").sig with
      inputs := [FnArg.typed ⟨Pat.ident "j", tyI32⟩] } }

/-- A test method identical to `mkTestMethod "fn1"` except private. -/
def privateTestMethod : ImplItemMethod :=
  { mkTestMethod "fn1" with vis := Visibility.inherited }

/-- The `invoke_all` dispatcher generated for the doc-example group with
clone set `{0}`, extracted from `create_invoke_function` for concrete use. -/
def cloneExampleFn : GeneratedFn :=
  (create_invoke_function (mkTestMethod "fn1") testMethods "Tester1"
      InvokeType.All none (some [0])).toOption.getD ⟨"", [], GBody.straight []⟩

/-- `true` iff the input list contains a receiver. -/
def anyReceiver : List FnArg → Bool
  | [] => false
  | FnArg.receiver _ :: _ => true
  | FnArg.typed _ :: rest => anyReceiver rest

lemma runStmts_append {V : Type} (interp : InnerCall → V) (a b : List GStmt) :
    runStmts interp (a ++ b) = runStmts interp a ++ runStmts interp b := by
  induction a with
  | nil => rfl
  | cons s rest ih => simp [runStmts, ih]

lemma invokedMethods_append {V : Type} (a b : List (Ev V)) :
    invokedMethods (a ++ b) = invokedMethods a ++ invokedMethods b := by
  induction a with
  | nil => rfl
  | cons e rest ih => cases e <;> simp [invokedMethods, ih]

lemma stmtsCalls_append (a b : List GStmt) :
    stmtsCalls (a ++ b) = stmtsCalls a ++ stmtsCalls b := by
  induction a with
  | nil => rfl
  | cons s rest ih => simp [stmtsCalls, ih]

lemma enum_try_from_mem {names : List String} {n : String} (h : n ∈ names) :
    ∃ d, enum_try_from names n = .ok d ∧ names.get? d = some n := by
  induction names with
  | nil => cases h
  | cons a rest ih =>
    by_cases ha : n = a
    · exact ⟨0, by simp [enum_try_from, ha], by simp [ha]⟩
    · have hmem : n ∈ rest := by
        cases List.mem_cons.mp h with
        | inl hh => exact absurd hh ha
        | inr hh => exact hh
      obtain ⟨d, hd, hg⟩ := ih hmem
      exact ⟨d + 1, by simp [enum_try_from, ha, hd, Except.map], by simpa using hg⟩

lemma enum_try_from_not_mem {names : List String} {s : String} (h : s ∉ names) :
    enum_try_from names s = .error "Input str does not match any enums in Self!" := by
  induction names with
  | nil => rfl
  | cons a rest ih =>
    have ha : s ≠ a := fun hh => h (hh ▸ List.mem_cons_self a rest)
    have hrest : s ∉ rest := fun hh => h (List.mem_cons_of_mem a hh)
    simp [enum_try_from, ha, ih hrest, Except.map]

lemma normalize_method_eq_iff (m base : ImplItemMethod) :
    normalize_method m = normalize_method base ↔
      m.vis = base.vis ∧ m.defaultness = base.defaultness ∧
      m.sig.generics = base.sig.generics ∧ m.sig.inputs = base.sig.inputs ∧
      m.sig.output = base.sig.output := by
  cases m with
  | mk a v d s bl =>
    cases s with
    | mk i g inp o =>
      cases base with
      | mk a2 v2 d2 s2 bl2 =>
        cases s2 with
        | mk i2 g2 inp2 o2 =>
          simp [normalize_method]

lemma create_ok_body {base : ImplItemMethod} {methods : List ImplItemMethod}
    {si : String} {it : InvokeType} {nm : Option String}
    {cl : Option (List Nat)} {b : Bool} {pids : List ArgExpr} {f : GeneratedFn}
    (hc : compute_param_ids cl base.sig.inputs = .ok (b, pids))
    (h : create_invoke_function base methods si it nm cl = .ok f) :
    f.body = invoke_body it b base.sig.output methods si nm (genericIdents base) pids := by
  unfold create_invoke_function at h
  rw [hc] at h
  cases hcp : consumer_param (generate_enum_name si nm) it base.sig.output with
  | error e => rw [hcp] at h; cases h
  | ok c => rw [hcp] at h; cases h; rfl

lemma create_error {base : ImplItemMethod} {methods : List ImplItemMethod}
    {si : String} {it : InvokeType} {nm : Option String}
    {cl : Option (List Nat)} {e : String}
    (hc : compute_param_ids cl base.sig.inputs = .error e) :
    create_invoke_function base methods si it nm cl = .error e := by
  unfold create_invoke_function
  rw [hc]

lemma create_ok_full {base : ImplItemMethod} {methods : List ImplItemMethod}
    {si : String} {it : InvokeType} {nm : Option String}
    {cl : Option (List Nat)} {b : Bool} {pids : List ArgExpr}
    {c : Option GenParam}
    (hc : compute_param_ids cl base.sig.inputs = .ok (b, pids))
    (hcp : consumer_param (generate_enum_name si nm) it base.sig.output = .ok c) :
    create_invoke_function base methods si it nm cl =
      .ok { ident := generate_invoke_name nm it,
            inputs := base.sig.inputs.map GenParam.original ++ c.toList ++
              (specifier_param (generate_enum_name si nm) it).toList,
            body := invoke_body it b base.sig.output methods si nm
              (genericIdents base) pids } := by
  unfold create_invoke_function
  rw [hc, hcp]

lemma run_invoke_all_block_invoked {V : Type} (interp : InnerCall → V)
    (b : Bool) (out : ReturnType) (ms : List ImplItemMethod) (si : String)
    (gp : List String) (pids : List ArgExpr) :
    invokedMethods (runBody interp (invoke_all_block b out ms si gp pids) []).1 =
      ms.map fun m => m.sig.ident := by
  induction ms with
  | nil => rfl
  | cons m rest ih =>
    cases h : nonVoidOutput out <;>
      simp [invoke_all_block, runBody, runStmts, runStmt, h, invokedMethods,
        invokedMethods_append, get_inner_call_expr] at ih ⊢ <;>
      exact ih

lemma run_invoke_all_block_nonvoid {V : Type} (interp : InnerCall → V)
    (b : Bool) (out : ReturnType) (ms : List ImplItemMethod) (si : String)
    (gp : List String) (pids : List ArgExpr) (hnv : nonVoidOutput out = true) :
    runBody interp (invoke_all_block b out ms si gp pids) [] =
      (ms.flatMap fun m =>
        [Ev.invoke m.sig.ident,
         Ev.callback none (some (interp (get_inner_call_expr b m si gp pids)))],
       none) := by
  induction ms with
  | nil => rfl
  | cons m rest ih =>
    simp [invoke_all_block, runBody, runStmts, runStmt, hnv,
      get_inner_call_expr] at ih ⊢
    exact ih

lemma allEnumStmts_invoked {V : Type} (interp : InnerCall → V)
    (b : Bool) (st : SpecificationType) (out : ReturnType) (en si : String)
    (gp : List String) (pids : List ArgExpr) (ms : List ImplItemMethod) :
    ∀ idx, invokedMethods
        (runStmts interp (allEnumStmts b st out en si gp pids idx ms)) =
      ms.map fun m => m.sig.ident := by
  induction ms with
  | nil => intro idx; rfl
  | cons m rest ih =>
    intro idx
    cases h : nonVoidOutput out <;>
      simp [allEnumStmts, h, runStmts_append, runStmts, runStmt,
        invokedMethods_append, invokedMethods, get_inner_call_expr, ih]

lemma allEnumStmts_nonvoid {V : Type} (interp : InnerCall → V)
    (b : Bool) (st : SpecificationType) (out : ReturnType) (en si : String)
    (gp : List String) (pids : List ArgExpr) (ms : List ImplItemMethod)
    (hnv : nonVoidOutput out = true) :
    ∀ idx, runStmts interp (allEnumStmts b st out en si gp pids idx ms) =
      (List.enumFrom idx ms).flatMap fun pr =>
        [Ev.invoke pr.2.sig.ident,
         Ev.callback
           (some (match st with
             | SpecificationType.Enum => TagExpr.enumVariant en pr.2.sig.ident
             | SpecificationType.Enumerated => TagExpr.index pr.1))
           (some (interp (get_inner_call_expr b pr.2 si gp pids)))] := by
  induction ms with
  | nil => intro idx; rfl
  | cons m rest ih =>
    intro idx
    simp [allEnumStmts, hnv, runStmts_append, runStmts, runStmt,
      get_inner_call_expr, List.enumFrom, ih]

lemma enumFrom_flatMap_snd {α β : Type} (g : α → List β) :
    ∀ (n : Nat) (l : List α),
      (List.enumFrom n l).flatMap (fun pr => g pr.2) = l.flatMap g := by
  intro n l
  induction l generalizing n with
  | nil => rfl
  | cons a rest ih => simp [List.enumFrom, ih]

lemma runLoop_valid {V : Type} (interp : InnerCall → V) (arms : List (List GStmt))
    (hd : Bool) :
    ∀ ss : List Nat, (∀ i ∈ ss, i < arms.length) →
      runLoop interp arms hd ss =
        (ss.flatMap fun i => (runLoop interp arms hd [i]).1, none) := by
  intro ss
  induction ss with
  | nil => intro _; rfl
  | cons i rest ih =>
    intro hv
    have hi : i < arms.length := hv i (List.mem_cons_self i rest)
    have harm : arms[i]? = some arms[i] := List.getElem?_eq_getElem hi
    have hrest : ∀ j ∈ rest, j < arms.length := fun j hj =>
      hv j (List.mem_cons_of_mem i hj)
    simp [runLoop, harm, ih hrest]

lemma runLoop_invalid_first {V : Type} (interp : InnerCall → V)
    (arms : List (List GStmt)) :
    ∀ (ss₁ : List Nat) (s : Nat) (ss₂ : List Nat),
      (∀ i ∈ ss₁, i < arms.length) → arms.length ≤ s →
      runLoop interp arms true (ss₁ ++ s :: ss₂) =
        ((runLoop interp arms true ss₁).1,
         some "Iter contains invalid function index!") := by
  intro ss₁
  induction ss₁ with
  | nil =>
    intro s ss₂ _ hs
    have hnone : arms[s]? = none := List.getElem?_eq_none hs
    simp [runLoop, hnone]
  | cons i rest ih =>
    intro s ss₂ hv hs
    have hi : i < arms.length := hv i (List.mem_cons_self i rest)
    have harm : arms[i]? = some arms[i] := List.getElem?_eq_getElem hi
    have hrest : ∀ j ∈ rest, j < arms.length := fun j hj =>
      hv j (List.mem_cons_of_mem i hj)
    simp [runLoop, harm, ih s ss₂ hrest hs]

lemma enumArms_length (b : Bool) (st : SpecificationType) (out : ReturnType)
    (en si : String) (gp : List String) (pids : List ArgExpr)
    (ms : List ImplItemMethod) :
    ∀ idx, (enumArms b st out en si gp pids idx ms).length = ms.length := by
  induction ms with
  | nil => intro idx; rfl
  | cons m rest ih => intro idx; simp [enumArms, ih]

lemma stmtsCalls_invoke_all_map (b : Bool) (out : ReturnType)
    (ms : List ImplItemMethod) (si : String) (gp : List String)
    (pids : List ArgExpr) :
    bodyCalls (invoke_all_block b out ms si gp pids) =
      ms.map fun m => get_inner_call_expr b m si gp pids := by
  induction ms with
  | nil => rfl
  | cons m rest ih =>
    cases h : nonVoidOutput out <;>
      simp [invoke_all_block, bodyCalls, stmtsCalls, stmtCalls, h] at ih ⊢ <;>
      exact ih

lemma stmtsCalls_invoke_some (b : Bool) (out : ReturnType)
    (ms : List ImplItemMethod) (si : String) (gp : List String)
    (pids : List ArgExpr) :
    bodyCalls (invoke_some_block b out ms si gp pids) =
      ms.map fun m => get_inner_call_expr b m si gp pids := by
  induction ms with
  | nil => rfl
  | cons m rest ih =>
    cases h : nonVoidOutput out <;>
      simp [invoke_some_block, bodyCalls, stmtsCalls, stmtCalls, h] at ih ⊢ <;>
      exact ih

lemma allEnumStmts_calls (b : Bool) (st : SpecificationType) (out : ReturnType)
    (en si : String) (gp : List String) (pids : List ArgExpr)
    (ms : List ImplItemMethod) :
    ∀ idx, stmtsCalls (allEnumStmts b st out en si gp pids idx ms) =
      ms.map fun m => get_inner_call_expr b m si gp pids := by
  induction ms with
  | nil => intro idx; rfl
  | cons m rest ih =>
    intro idx
    cases h : nonVoidOutput out <;>
      simp [allEnumStmts, h, stmtsCalls_append, stmtsCalls, stmtCalls, ih]

lemma enumArms_calls (b : Bool) (st : SpecificationType) (out : ReturnType)
    (en si : String) (gp : List String) (pids : List ArgExpr)
    (ms : List ImplItemMethod) :
    ∀ idx, (enumArms b st out en si gp pids idx ms).flatMap stmtsCalls =
      ms.map fun m => get_inner_call_expr b m si gp pids := by
  induction ms with
  | nil => intro idx; rfl
  | cons m rest ih =>
    intro idx
    cases h : nonVoidOutput out <;>
      simp [enumArms, h, stmtsCalls_append, stmtsCalls, stmtCalls, ih]

lemma bodyCalls_invoke_body (it : InvokeType) (b : Bool) (out : ReturnType)
    (ms : List ImplItemMethod) (si : String) (nm : Option String)
    (gp : List String) (pids : List ArgExpr) :
    bodyCalls (invoke_body it b out ms si nm gp pids) =
      ms.map fun m => get_inner_call_expr b m si gp pids := by
  cases it with
  | Specified st =>
    simp [invoke_body, invoke_enum_block, bodyCalls]
    exact enumArms_calls b st out (generate_enum_name si nm) si gp pids ms 0
  | SpecifiedAll st =>
    simp [invoke_body, invoke_all_enum_block, bodyCalls]
    exact allEnumStmts_calls b st out (generate_enum_name si nm) si gp pids ms 0
  | Subset => exact stmtsCalls_invoke_some b out ms si gp pids
  | All => exact stmtsCalls_invoke_all_map b out ms si gp pids

lemma paramIdsGo_typed (cs : List Nat) (params : List (String × Ty)) :
    ∀ (idx : Nat) (b : Bool),
      paramIdsGo (some cs) idx b
          (params.map fun pr => FnArg.typed ⟨Pat.ident pr.1, pr.2⟩) =
        .ok (b, forwardSpec (some cs) idx (params.map Prod.fst)) := by
  induction params with
  | nil => intro idx b; rfl
  | cons hd tl ih =>
    intro idx b
    have hstep : paramIdsGo (some cs) idx b
        (FnArg.typed ⟨Pat.ident hd.1, hd.2⟩ ::
          tl.map fun pr => FnArg.typed ⟨Pat.ident pr.1, pr.2⟩) =
        (paramIdsGo (some cs) (idx + 1) b
          (tl.map fun pr => FnArg.typed ⟨Pat.ident pr.1, pr.2⟩)).map fun pr =>
            (pr.1, (if cs.contains idx then ArgExpr.cloned hd.1
                    else ArgExpr.forward hd.1) :: pr.2) := rfl
    rw [List.map_cons, hstep, ih (idx + 1) b]
    rfl

lemma forwardSpec_get (cl : Option (List Nat)) (ids : List String) :
    ∀ (p i : Nat),
      (forwardSpec cl i ids).get? p = (ids.get? p).map fun id =>
        match cl with
        | some hs => if hs.contains (i + p) then ArgExpr.cloned id
                     else ArgExpr.forward id
        | none => ArgExpr.forward id := by
  induction ids with
  | nil => intro p i; simp [forwardSpec]
  | cons hd tl ih =>
    intro p i
    cases p with
    | zero => simp [forwardSpec]
    | succ q =>
      have h1 : (forwardSpec cl i (hd :: tl)).get? (q + 1) =
          (forwardSpec cl (i + 1) tl).get? q := rfl
      have h2 : i + 1 + q = i + (q + 1) := by omega
      rw [h1, ih q (i + 1), h2]
      rfl

lemma paramIdsGo_byValue (cl : Option (List Nat)) :
    ∀ (inputs : List FnArg) (idx : Nat) (isM : Bool),
      (∃ r, FnArg.receiver r ∈ inputs ∧ r.reference = false) →
      paramIdsGo cl idx isM inputs =
        .error "invoke_impl cannot be used with methods taking self as move!" := by
  intro inputs
  induction inputs with
  | nil =>
    intro idx isM h
    obtain ⟨r, hr, _⟩ := h
    cases hr
  | cons a rest ih =>
    intro idx isM h
    obtain ⟨r, hr, href⟩ := h
    cases a with
    | receiver r0 =>
      cases List.mem_cons.mp hr with
      | inl heq =>
        have : r = r0 := by injection heq
        subst this
        simp [paramIdsGo, href]
      | inr hmem =>
        cases h0 : r0.reference with
        | true => simp [paramIdsGo, h0, ih (idx + 1) true ⟨r, hmem, href⟩]
        | false => simp [paramIdsGo, h0]
    | typed pt =>
      have hmem : FnArg.receiver r ∈ rest := by
        cases List.mem_cons.mp hr with
        | inl heq => cases heq
        | inr hmem => exact hmem
      cases hp : pt.pat with
      | ident id =>
        simp [paramIdsGo, hp, ih (idx + 1) isM ⟨r, hmem, href⟩, Except.map]
      | wild => simp [paramIdsGo, hp, ih (idx + 1) isM ⟨r, hmem, href⟩]

lemma anyReceiver_of_mem {r : Receiver} :
    ∀ {inputs : List FnArg}, FnArg.receiver r ∈ inputs → anyReceiver inputs = true := by
  intro inputs
  induction inputs with
  | nil => intro h; cases h
  | cons a rest ih =>
    intro h
    cases a with
    | receiver r0 => rfl
    | typed pt =>
      cases List.mem_cons.mp h with
      | inl heq => cases heq
      | inr hmem => simpa [anyReceiver] using ih hmem

lemma paramIdsGo_no_byValue (cl : Option (List Nat)) :
    ∀ (inputs : List FnArg) (idx : Nat) (isM : Bool),
      (∀ r, FnArg.receiver r ∈ inputs → r.reference = true) →
      ∃ pids, paramIdsGo cl idx isM inputs = .ok (isM || anyReceiver inputs, pids) := by
  intro inputs
  induction inputs with
  | nil => intro idx isM _; exact ⟨[], by simp [paramIdsGo, anyReceiver]⟩
  | cons a rest ih =>
    intro idx isM h
    cases a with
    | receiver r0 =>
      have h0 : r0.reference = true := h r0 (List.mem_cons_self _ _)
      obtain ⟨pids, hps⟩ := ih (idx + 1) true
        (fun r hr => h r (List.mem_cons_of_mem _ hr))
      refine ⟨pids, ?_⟩
      simp [paramIdsGo, h0, hps, anyReceiver]
    | typed pt =>
      obtain ⟨pids, hps⟩ := ih (idx + 1) isM
        (fun r hr => h r (List.mem_cons_of_mem _ hr))
      cases hp : pt.pat with
      | ident id =>
        cases cl with
        | none =>
          refine ⟨ArgExpr.forward id :: pids, ?_⟩
          simp [paramIdsGo, hp, hps, Except.map, anyReceiver]
        | some hs =>
          by_cases hidx : idx ∈ hs
          · refine ⟨ArgExpr.cloned id :: pids, ?_⟩
            simp [paramIdsGo, hp, hps, Except.map, anyReceiver, hidx]
          · refine ⟨ArgExpr.forward id :: pids, ?_⟩
            simp [paramIdsGo, hp, hps, Except.map, anyReceiver, hidx]
      | wild => exact ⟨pids, by simp [paramIdsGo, hp, hps, anyReceiver]⟩

/-- C1 counterexample: for a member with a by-reference receiver and clone
set `{0}`, the claim says the first non-receiver parameter (position 0,
receiver excluded) is forwarded as a clone; the code instead enumerates the
receiver at index 0, so the parameter `i` sits at index 1, misses the clone
set and is forwarded directly. -/
theorem clone_position_receiver_cex :
    compute_param_ids (some [0])
        [FnArg.receiver ⟨true, false⟩, FnArg.typed ⟨Pat.ident "i", Ty.path "i32"⟩] =
      .ok (true, [ArgExpr.forward "i"]) ∧
    compute_param_ids (some [0])
        [FnArg.receiver ⟨true, false⟩, FnArg.typed ⟨Pat.ident "i", Ty.path "i32"⟩] ≠
      .ok (true, [ArgExpr.cloned "i"]) := by
  decide

/-- C1 (amended): clone positions index the signature inputs with the
receiver included.  For free functions the argument at parameter position `p`
is cloned iff `p` is in the clone set and forwarded directly otherwise; for
members with a by-reference receiver the receiver occupies index 0, so the
non-receiver parameter at position `p` is cloned iff `p + 1` is in the clone
set.  Every generated dispatcher forwards exactly this argument list to each
member call. -/
theorem clone_positions (cs : List Nat) (params : List (String × Ty)) (mt : Bool) :
    (compute_param_ids (some cs)
        (params.map fun pr => FnArg.typed ⟨Pat.ident pr.1, pr.2⟩) =
      .ok (false, forwardSpec (some cs) 0 (params.map Prod.fst))) ∧
    (compute_param_ids (some cs)
        (FnArg.receiver ⟨true, mt⟩ ::
          params.map fun pr => FnArg.typed ⟨Pat.ident pr.1, pr.2⟩) =
      .ok (true, forwardSpec (some cs) 1 (params.map Prod.fst))) ∧
    (∀ p id, (params.map Prod.fst).get? p = some id →
      (forwardSpec (some cs) 0 (params.map Prod.fst)).get? p =
        some (if cs.contains p then ArgExpr.cloned id else ArgExpr.forward id) ∧
      (forwardSpec (some cs) 1 (params.map Prod.fst)).get? p =
        some (if cs.contains (p + 1) then ArgExpr.cloned id else ArgExpr.forward id)) ∧
    (∀ (base : ImplItemMethod) (methods : List ImplItemMethod) (si : String)
        (it : InvokeType) (nm : Option String) (b : Bool) (pids : List ArgExpr)
        (f : GeneratedFn),
      compute_param_ids (some cs) base.sig.inputs = .ok (b, pids) →
      create_invoke_function base methods si it nm (some cs) = .ok f →
      ∀ c ∈ bodyCalls f.body, c.args = pids) := by
  refine ⟨paramIdsGo_typed cs params 0 false, ?_, ?_, ?_⟩
  · have hstep : compute_param_ids (some cs)
        (FnArg.receiver ⟨true, mt⟩ ::
          params.map fun pr => FnArg.typed ⟨Pat.ident pr.1, pr.2⟩) =
        paramIdsGo (some cs) 1 true
          (params.map fun pr => FnArg.typed ⟨Pat.ident pr.1, pr.2⟩) := rfl
    rw [hstep, paramIdsGo_typed cs params 1 true]
  · intro p id hp
    constructor
    · rw [forwardSpec_get (some cs) (params.map Prod.fst) p 0, hp]
      simp
    · rw [forwardSpec_get (some cs) (params.map Prod.fst) p 1, hp]
      have : 1 + p = p + 1 := Nat.add_comm 1 p
      simp [this]
  · intro base methods si it nm b pids f hc hok c hcm
    have hb := create_ok_body hc hok
    rw [hb, bodyCalls_invoke_body] at hcm
    obtain ⟨m, _, hm⟩ := List.mem_map.mp hcm
    rw [← hm]
    rfl

/-- C1 witness: concrete instances of the amended claim — a free function
with clone set `{0}` clones its parameter `i`, position 0 of the forwarding
spec is the cloned argument, and the generated `invoke_all` body forwards the
cloned argument list to every member call. -/
theorem clone_positions_w :
    compute_param_ids (some [0])
        ([("i", tyI32)].map fun pr => FnArg.typed ⟨Pat.ident pr.1, pr.2⟩) =
      .ok (false, forwardSpec (some [0]) 0 ([("i", tyI32)].map Prod.fst)) ∧
    (forwardSpec (some [0]) 0 ([("i", tyI32)].map Prod.fst)).get? 0 =
      some (if List.contains [0] 0 then ArgExpr.cloned "i" else ArgExpr.forward "i") ∧
    ∀ c ∈ bodyCalls cloneExampleFn.body, c.args = [ArgExpr.cloned "i"] :=
  ⟨(clone_positions [0] [("i", tyI32)] false).1,
   ((clone_positions [0] [("i", tyI32)] false).2.2.1 0 "i" (by decide)).1,
   (clone_positions [0] [("i", tyI32)] false).2.2.2 (mkTestMethod "fn1")
     testMethods "Tester1" InvokeType.All none false [ArgExpr.cloned "i"]
     cloneExampleFn (by decide) (by decide)⟩

/-- C2 counterexample: two members agreeing on the specified Signature Shape
(parameter types, receiver marker, generics, return shape) but differing only
in a parameter identifier (`i` vs `j`) are rejected by `validate_signatures`,
so the claimed validation success fails. -/
theorem param_name_validation_cex :
    specShapeOf paramRenamedTestMethod = specShapeOf (mkTestMethod "fn1") ∧
    validate_signatures (mkTestMethod "fn1")
      [mkTestMethod "fn1", paramRenamedTestMethod] = false := by
  decide

/-- C2 (amended): the validator compares whole normalized declarations,
stripping only the method identifier, the attributes (documentation) and the
body; validation succeeds iff every member agrees with the baseline on
visibility, defaultness, generics, the full input list — parameter
identifiers included — and the return type.  A group differing only in
parameter names is therefore rejected. -/
theorem validate_signatures_characterization (base : ImplItemMethod)
    (methods : List ImplItemMethod) :
    validate_signatures base methods = true ↔
      ∀ m ∈ methods, m.vis = base.vis ∧ m.defaultness = base.defaultness ∧
        m.sig.generics = base.sig.generics ∧ m.sig.inputs = base.sig.inputs ∧
        m.sig.output = base.sig.output := by
  simp only [validate_signatures, List.all_eq_true, decide_eq_true_eq]
  constructor
  · intro h m hm
    exact (normalize_method_eq_iff m base).mp (h m hm)
  · intro h m hm
    exact (normalize_method_eq_iff m base).mpr (h m hm)

/-- C2 witness: a group of two members identical up to method name passes
validation. -/
theorem validate_signatures_characterization_w :
    validate_signatures (mkTestMethod "fn1") [mkTestMethod "fn2"] = true :=
  (validate_signatures_characterization (mkTestMethod "fn1")
    [mkTestMethod "fn2"]).mpr (by decide)

/-- C10: the signature gate normalizes only the method name, the attributes
and the body before comparing whole declarations — a member differing from
the baseline in visibility is rejected, while one differing only in name,
attributes or body is accepted. -/
theorem signature_gate_whole_declaration (base m : ImplItemMethod)
    (hvis : m.vis ≠ base.vis) :
    validate_signatures base [m] = false ∧
    ∀ (a : List String) (i : String) (bl : List String),
      validate_signatures base
        [{ base with
            attrs := a, block := bl,
            sig := { base.sig with ident := i } }] = true := by
  constructor
  · have hne : normalize_method m ≠ normalize_method base := fun h =>
      hvis ((normalize_method_eq_iff m base).mp h).1
    simp [validate_signatures, hne]
  · intro a i bl
    simp [validate_signatures, normalize_method]

/-- C10 witness: the private copy of `fn1` is rejected against the public
baseline, while a doc/name/body-modified copy is accepted. -/
theorem signature_gate_whole_declaration_w :
    validate_signatures (mkTestMethod "fn1") [privateTestMethod] = false ∧
    validate_signatures (mkTestMethod "fn1")
      [{ mkTestMethod "fn1" with
          attrs := ["doc"], block := ["other body"],
          sig := { (mkTestMethod "fn1").sig with ident := "renamed" } }] = true :=
  ⟨(signature_gate_whole_declaration (mkTestMethod "fn1") privateTestMethod
      (by decide)).1,
   (signature_gate_whole_declaration (mkTestMethod "fn1") privateTestMethod
      (by decide)).2 ["doc"] "renamed" ["other body"]⟩

/-- C3: the three All-scope dispatcher bodies (`invoke_all`,
`invoke_all_enumerated`, `invoke_all_enum`) invoke every member exactly once,
strictly in declaration order, without failing; and when the shared return
shape is non-void the full trace alternates each member invocation with a
callback carrying that member's result — untagged for `invoke_all`, tagged
with the 0-based index for `invoke_all_enumerated` and with the member's
enum discriminant for `invoke_all_enum`, in that same declaration order. -/
theorem all_scope_dispatch_order {V : Type} (interp : InnerCall → V) (b : Bool)
    (out : ReturnType) (ms : List ImplItemMethod) (si : String)
    (nm : Option String) (gp : List String) (pids : List ArgExpr) :
    (invokedMethods (runBody interp (invoke_all_block b out ms si gp pids) []).1 =
        ms.map fun m => m.sig.ident) ∧
    ((runBody interp (invoke_all_block b out ms si gp pids) []).2 = none) ∧
    (invokedMethods (runBody interp
        (invoke_all_enum_block b SpecificationType.Enumerated out ms si nm gp pids)
          []).1 = ms.map fun m => m.sig.ident) ∧
    ((runBody interp
        (invoke_all_enum_block b SpecificationType.Enumerated out ms si nm gp pids)
          []).2 = none) ∧
    (invokedMethods (runBody interp
        (invoke_all_enum_block b SpecificationType.Enum out ms si nm gp pids)
          []).1 = ms.map fun m => m.sig.ident) ∧
    ((runBody interp
        (invoke_all_enum_block b SpecificationType.Enum out ms si nm gp pids)
          []).2 = none) ∧
    (nonVoidOutput out = true →
      runBody interp (invoke_all_block b out ms si gp pids) [] =
        (ms.flatMap fun m =>
          [Ev.invoke m.sig.ident,
           Ev.callback none (some (interp (get_inner_call_expr b m si gp pids)))],
         none) ∧
      runBody interp
          (invoke_all_enum_block b SpecificationType.Enumerated out ms si nm gp pids)
          [] =
        (ms.enum.flatMap fun pr =>
          [Ev.invoke pr.2.sig.ident,
           Ev.callback (some (TagExpr.index pr.1))
             (some (interp (get_inner_call_expr b pr.2 si gp pids)))],
         none) ∧
      runBody interp
          (invoke_all_enum_block b SpecificationType.Enum out ms si nm gp pids)
          [] =
        (ms.flatMap fun m =>
          [Ev.invoke m.sig.ident,
           Ev.callback
             (some (TagExpr.enumVariant (generate_enum_name si nm) m.sig.ident))
             (some (interp (get_inner_call_expr b m si gp pids)))],
         none)) := by
  refine ⟨run_invoke_all_block_invoked interp b out ms si gp pids, rfl, ?_, rfl,
    ?_, rfl, fun hnv => ⟨run_invoke_all_block_nonvoid interp b out ms si gp pids hnv,
      ?_, ?_⟩⟩
  · simpa [invoke_all_enum_block, runBody] using
      allEnumStmts_invoked interp b SpecificationType.Enumerated out
        (generate_enum_name si nm) si gp pids ms 0
  · simpa [invoke_all_enum_block, runBody] using
      allEnumStmts_invoked interp b SpecificationType.Enum out
        (generate_enum_name si nm) si gp pids ms 0
  · simp only [invoke_all_enum_block, runBody]
    rw [allEnumStmts_nonvoid interp b SpecificationType.Enumerated out
      (generate_enum_name si nm) si gp pids ms hnv 0]
    rfl
  · simp only [invoke_all_enum_block, runBody]
    rw [allEnumStmts_nonvoid interp b SpecificationType.Enum out
      (generate_enum_name si nm) si gp pids ms hnv 0]
    rw [enumFrom_flatMap_snd (fun m =>
      [Ev.invoke m.sig.ident,
       Ev.callback
         (some (TagExpr.enumVariant (generate_enum_name si nm) m.sig.ident))
         (some (interp (get_inner_call_expr b m si gp pids)))]) 0 ms]

/-- C3 witness: the non-void trace shapes of the three All-scope dispatcher
bodies on the concrete three-member doc-example group. -/
theorem all_scope_dispatch_order_w :
    (runBody (fun c => c.method) (invoke_all_block false (ReturnType.ty tyI32)
        testMethods "Tester1" [] [ArgExpr.forward "i"]) [] =
      (testMethods.flatMap fun m =>
        [Ev.invoke m.sig.ident,
         Ev.callback none
           (some (get_inner_call_expr false m "Tester1" []
             [ArgExpr.forward "i"]).method)],
       none)) ∧
    (runBody (fun c => c.method) (invoke_all_enum_block false
        SpecificationType.Enumerated (ReturnType.ty tyI32) testMethods "Tester1"
        none [] [ArgExpr.forward "i"]) [] =
      (testMethods.enum.flatMap fun pr =>
        [Ev.invoke pr.2.sig.ident,
         Ev.callback (some (TagExpr.index pr.1))
           (some (get_inner_call_expr false pr.2 "Tester1" []
             [ArgExpr.forward "i"]).method)],
       none)) ∧
    (runBody (fun c => c.method) (invoke_all_enum_block false
        SpecificationType.Enum (ReturnType.ty tyI32) testMethods "Tester1"
        none [] [ArgExpr.forward "i"]) [] =
      (testMethods.flatMap fun m =>
        [Ev.invoke m.sig.ident,
         Ev.callback
           (some (TagExpr.enumVariant (generate_enum_name "Tester1" none)
             m.sig.ident))
           (some (get_inner_call_expr false m "Tester1" []
             [ArgExpr.forward "i"]).method)],
       none)) :=
  (all_scope_dispatch_order (fun c => c.method) false (ReturnType.ty tyI32)
    testMethods "Tester1" none [] [ArgExpr.forward "i"]).2.2.2.2.2.2 (by decide)

/-- C4: the numeric-selector dispatcher bodies (`invoke_subset`,
`invoke_enumerated`) run a selector list containing an out-of-range value by
processing every selector before it normally and in order (their combined
trace is the concatenation of the single-selector traces, with no error),
then fail with the descriptive panic message at the offending selector,
producing no further member invocations or callback calls. -/
theorem invalid_selector_aborts {V : Type} (interp : InnerCall → V) (b : Bool)
    (out : ReturnType) (ms : List ImplItemMethod) (si : String)
    (nm : Option String) (gp : List String) (pids : List ArgExpr)
    (ss₁ ss₂ : List Nat) (s : Nat)
    (hv : ∀ i ∈ ss₁, i < ms.length) (hs : ms.length ≤ s) :
    (runBody interp (invoke_some_block b out ms si gp pids) (ss₁ ++ s :: ss₂) =
      ((runBody interp (invoke_some_block b out ms si gp pids) ss₁).1,
       some "Iter contains invalid function index!") ∧
     (runBody interp (invoke_some_block b out ms si gp pids) ss₁).2 = none ∧
     (runBody interp (invoke_some_block b out ms si gp pids) ss₁).1 =
       ss₁.flatMap fun i =>
         (runBody interp (invoke_some_block b out ms si gp pids) [i]).1) ∧
    (runBody interp
        (invoke_enum_block b SpecificationType.Enumerated out ms si nm gp pids)
        (ss₁ ++ s :: ss₂) =
      ((runBody interp
          (invoke_enum_block b SpecificationType.Enumerated out ms si nm gp pids)
          ss₁).1,
       some "Iter contains invalid function index!") ∧
     (runBody interp
        (invoke_enum_block b SpecificationType.Enumerated out ms si nm gp pids)
        ss₁).2 = none ∧
     (runBody interp
        (invoke_enum_block b SpecificationType.Enumerated out ms si nm gp pids)
        ss₁).1 =
       ss₁.flatMap fun i =>
         (runBody interp
           (invoke_enum_block b SpecificationType.Enumerated out ms si nm gp pids)
           [i]).1) := by
  have hvA : ∀ i ∈ ss₁, i <
      (ms.map fun m =>
        [if nonVoidOutput out then
          GStmt.consume none (some (get_inner_call_expr b m si gp pids))
         else GStmt.exec (get_inner_call_expr b m si gp pids)]).length := by
    intro i hi
    simpa using hv i hi
  have hsA : (ms.map fun m =>
      [if nonVoidOutput out then
        GStmt.consume none (some (get_inner_call_expr b m si gp pids))
       else GStmt.exec (get_inner_call_expr b m si gp pids)]).length ≤ s := by
    simpa using hs
  have hvE : ∀ i ∈ ss₁, i <
      (enumArms b SpecificationType.Enumerated out (generate_enum_name si nm)
        si gp pids 0 ms).length := by
    intro i hi
    rw [enumArms_length]
    exact hv i hi
  have hsE : (enumArms b SpecificationType.Enumerated out
      (generate_enum_name si nm) si gp pids 0 ms).length ≤ s := by
    rw [enumArms_length]
    exact hs
  constructor
  · refine ⟨?_, ?_, ?_⟩
    · simpa [invoke_some_block, runBody] using
        runLoop_invalid_first interp _ ss₁ s ss₂ hvA hsA
    · have := runLoop_valid interp _ true ss₁ hvA
      simp [invoke_some_block, runBody, this]
    · have := runLoop_valid interp _ true ss₁ hvA
      simp [invoke_some_block, runBody, this]
  · refine ⟨?_, ?_, ?_⟩
    · simpa [invoke_enum_block, runBody] using
        runLoop_invalid_first interp _ ss₁ s ss₂ hvE hsE
    · have := runLoop_valid interp _ true ss₁ hvE
      simp [invoke_enum_block, runBody, this]
    · have := runLoop_valid interp _ true ss₁ hvE
      simp [invoke_enum_block, runBody, this]

/-- C4 witness: on the concrete three-member group, the selector list
`[2, 0, 3, 1]` (3 out of range) runs selectors 2 and 0, then aborts with the
panic message. -/
theorem invalid_selector_aborts_w :
    (runBody (fun c => c.method) (invoke_some_block false (ReturnType.ty tyI32)
        testMethods "Tester1" [] [ArgExpr.forward "i"]) ([2, 0] ++ 3 :: [1]) =
      ((runBody (fun c => c.method) (invoke_some_block false (ReturnType.ty tyI32)
          testMethods "Tester1" [] [ArgExpr.forward "i"]) [2, 0]).1,
       some "Iter contains invalid function index!") ∧
     (runBody (fun c => c.method) (invoke_some_block false (ReturnType.ty tyI32)
        testMethods "Tester1" [] [ArgExpr.forward "i"]) [2, 0]).2 = none ∧
     (runBody (fun c => c.method) (invoke_some_block false (ReturnType.ty tyI32)
        testMethods "Tester1" [] [ArgExpr.forward "i"]) [2, 0]).1 =
       [2, 0].flatMap fun i =>
         (runBody (fun c => c.method) (invoke_some_block false (ReturnType.ty tyI32)
           testMethods "Tester1" [] [ArgExpr.forward "i"]) [i]).1) ∧
    (runBody (fun c => c.method)
        (invoke_enum_block false SpecificationType.Enumerated (ReturnType.ty tyI32)
          testMethods "Tester1" none [] [ArgExpr.forward "i"]) ([2, 0] ++ 3 :: [1]) =
      ((runBody (fun c => c.method)
          (invoke_enum_block false SpecificationType.Enumerated (ReturnType.ty tyI32)
            testMethods "Tester1" none [] [ArgExpr.forward "i"]) [2, 0]).1,
       some "Iter contains invalid function index!") ∧
     (runBody (fun c => c.method)
        (invoke_enum_block false SpecificationType.Enumerated (ReturnType.ty tyI32)
          testMethods "Tester1" none [] [ArgExpr.forward "i"]) [2, 0]).2 = none ∧
     (runBody (fun c => c.method)
        (invoke_enum_block false SpecificationType.Enumerated (ReturnType.ty tyI32)
          testMethods "Tester1" none [] [ArgExpr.forward "i"]) [2, 0]).1 =
       [2, 0].flatMap fun i =>
         (runBody (fun c => c.method)
           (invoke_enum_block false SpecificationType.Enumerated (ReturnType.ty tyI32)
             testMethods "Tester1" none [] [ArgExpr.forward "i"]) [i]).1) :=
  invalid_selector_aborts (fun c => c.method) false (ReturnType.ty tyI32)
    testMethods "Tester1" none [] [ArgExpr.forward "i"] [2, 0] [1] 3
    (by decide) (by decide)

/-- C5: for the synthesized tag enum, decoding any member name to a
discriminant succeeds and re-encoding that discriminant yields the same name,
while decoding any string that is not a member name fails with the
descriptive error. -/
theorem tag_string_roundtrip (methods : List ImplItemMethod)
    (struct_ident : String) (name : Option String) :
    (∀ n ∈ (create_enum methods struct_ident name).variants,
      ∃ d, enum_try_from (create_enum methods struct_ident name).variants n =
          .ok d ∧
        enum_into_str (create_enum methods struct_ident name).variants d =
          some n) ∧
    ∀ s, s ∉ (create_enum methods struct_ident name).variants →
      enum_try_from (create_enum methods struct_ident name).variants s =
        .error "Input str does not match any enums in Self!" := by
  refine ⟨fun n hn => ?_, fun s hs => enum_try_from_not_mem hs⟩
  obtain ⟨d, hd, hg⟩ := enum_try_from_mem hn
  exact ⟨d, hd, hg⟩

/-- C5 witness: on the doc-example enum, `"fn2"` decodes and re-encodes to
itself while `"nope"` fails to decode. -/
theorem tag_string_roundtrip_w :
    (∃ d, enum_try_from (create_enum testMethods "Tester1" none).variants "fn2" =
        .ok d ∧
      enum_into_str (create_enum testMethods "Tester1" none).variants d =
        some "fn2") ∧
    enum_try_from (create_enum testMethods "Tester1" none).variants "nope" =
      .error "Input str does not match any enums in Self!" :=
  ⟨(tag_string_roundtrip testMethods "Tester1" none).1 "fn2" (by decide),
   (tag_string_roundtrip testMethods "Tester1" none).2 "nope" (by decide)⟩

/-- C6: when the shared return shape is void, `invoke_all` takes no callback
and no selector, `invoke_subset` takes only the selector iterator and no
callback, the Index-axis dispatchers take a callback over `usize` alone, and
the Discriminant-axis dispatchers take a callback over the tag enum alone
(plus, for `invoke_enumerated` / `invoke_enum`, the matching selector
iterator). -/
theorem void_callback_parameters (base : ImplItemMethod)
    (methods : List ImplItemMethod) (si : String) (nm : Option String)
    (cl : Option (List Nat)) (b : Bool) (pids : List ArgExpr)
    (hv : nonVoidOutput base.sig.output = false)
    (hc : compute_param_ids cl base.sig.inputs = .ok (b, pids)) :
    (∃ f, create_invoke_function base methods si InvokeType.All nm cl = .ok f ∧
      f.inputs = base.sig.inputs.map GenParam.original) ∧
    (∃ f, create_invoke_function base methods si InvokeType.Subset nm cl = .ok f ∧
      f.inputs = base.sig.inputs.map GenParam.original ++
        [GenParam.iter ConsTy.usize]) ∧
    (∃ f, create_invoke_function base methods si
        (InvokeType.SpecifiedAll SpecificationType.Enumerated) nm cl = .ok f ∧
      f.inputs = base.sig.inputs.map GenParam.original ++
        [GenParam.consumer [ConsTy.usize]]) ∧
    (∃ f, create_invoke_function base methods si
        (InvokeType.SpecifiedAll SpecificationType.Enum) nm cl = .ok f ∧
      f.inputs = base.sig.inputs.map GenParam.original ++
        [GenParam.consumer [ConsTy.enumType (generate_enum_name si nm)]]) ∧
    (∃ f, create_invoke_function base methods si
        (InvokeType.Specified SpecificationType.Enumerated) nm cl = .ok f ∧
      f.inputs = base.sig.inputs.map GenParam.original ++
        [GenParam.consumer [ConsTy.usize], GenParam.iter ConsTy.usize]) ∧
    (∃ f, create_invoke_function base methods si
        (InvokeType.Specified SpecificationType.Enum) nm cl = .ok f ∧
      f.inputs = base.sig.inputs.map GenParam.original ++
        [GenParam.consumer [ConsTy.enumType (generate_enum_name si nm)],
         GenParam.iter (ConsTy.enumType (generate_enum_name si nm))]) := by
  have h1 : consumer_param (generate_enum_name si nm) InvokeType.All
      base.sig.output = .ok none := by simp [consumer_param, hv]
  have h2 : consumer_param (generate_enum_name si nm) InvokeType.Subset
      base.sig.output = .ok none := by simp [consumer_param, hv]
  have h3 : consumer_param (generate_enum_name si nm)
      (InvokeType.SpecifiedAll SpecificationType.Enumerated) base.sig.output =
      .ok (some (GenParam.consumer [ConsTy.usize])) := by
    simp [consumer_param, hv]
  have h4 : consumer_param (generate_enum_name si nm)
      (InvokeType.SpecifiedAll SpecificationType.Enum) base.sig.output =
      .ok (some (GenParam.consumer
        [ConsTy.enumType (generate_enum_name si nm)])) := by
    simp [consumer_param, hv]
  have h5 : consumer_param (generate_enum_name si nm)
      (InvokeType.Specified SpecificationType.Enumerated) base.sig.output =
      .ok (some (GenParam.consumer [ConsTy.usize])) := by
    simp [consumer_param, hv]
  have h6 : consumer_param (generate_enum_name si nm)
      (InvokeType.Specified SpecificationType.Enum) base.sig.output =
      .ok (some (GenParam.consumer
        [ConsTy.enumType (generate_enum_name si nm)])) := by
    simp [consumer_param, hv]
  refine ⟨⟨_, create_ok_full hc h1, ?_⟩, ⟨_, create_ok_full hc h2, ?_⟩,
    ⟨_, create_ok_full hc h3, ?_⟩, ⟨_, create_ok_full hc h4, ?_⟩,
    ⟨_, create_ok_full hc h5, ?_⟩, ⟨_, create_ok_full hc h6, ?_⟩⟩ <;>
  simp [specifier_param, Option.toList]

/-- C6 witness: the six void-case parameter lists on a concrete one-parameter
void method. -/
theorem void_callback_parameters_w :
    (∃ f, create_invoke_function voidTestMethod testMethods "Tester1"
        InvokeType.All none none = .ok f ∧
      f.inputs = voidTestMethod.sig.inputs.map GenParam.original) ∧
    (∃ f, create_invoke_function voidTestMethod testMethods "Tester1"
        InvokeType.Subset none none = .ok f ∧
      f.inputs = voidTestMethod.sig.inputs.map GenParam.original ++
        [GenParam.iter ConsTy.usize]) ∧
    (∃ f, create_invoke_function voidTestMethod testMethods "Tester1"
        (InvokeType.SpecifiedAll SpecificationType.Enumerated) none none = .ok f ∧
      f.inputs = voidTestMethod.sig.inputs.map GenParam.original ++
        [GenParam.consumer [ConsTy.usize]]) ∧
    (∃ f, create_invoke_function voidTestMethod testMethods "Tester1"
        (InvokeType.SpecifiedAll SpecificationType.Enum) none none = .ok f ∧
      f.inputs = voidTestMethod.sig.inputs.map GenParam.original ++
        [GenParam.consumer [ConsTy.enumType (generate_enum_name "Tester1" none)]]) ∧
    (∃ f, create_invoke_function voidTestMethod testMethods "Tester1"
        (InvokeType.Specified SpecificationType.Enumerated) none none = .ok f ∧
      f.inputs = voidTestMethod.sig.inputs.map GenParam.original ++
        [GenParam.consumer [ConsTy.usize], GenParam.iter ConsTy.usize]) ∧
    (∃ f, create_invoke_function voidTestMethod testMethods "Tester1"
        (InvokeType.Specified SpecificationType.Enum) none none = .ok f ∧
      f.inputs = voidTestMethod.sig.inputs.map GenParam.original ++
        [GenParam.consumer [ConsTy.enumType (generate_enum_name "Tester1" none)],
         GenParam.iter (ConsTy.enumType (generate_enum_name "Tester1" none))]) :=
  void_callback_parameters voidTestMethod testMethods "Tester1" none none false
    [ArgExpr.forward "i"] (by decide) (by decide)

/-- C7: a member list whose base method declares a by-value receiver makes
`create_invoke_function` fail with the unsupported-receiver panic for every
dispatcher kind, so nothing is synthesized; a by-reference receiver is
accepted, sets the method flag, and makes every member call of every
successfully generated dispatcher body a bound call through the receiver. -/
theorem receiver_handling (base : ImplItemMethod) (methods : List ImplItemMethod)
    (si : String) (nm : Option String) (cl : Option (List Nat)) :
    ((∃ r, FnArg.receiver r ∈ base.sig.inputs ∧ r.reference = false) →
      ∀ it, create_invoke_function base methods si it nm cl =
        .error "invoke_impl cannot be used with methods taking self as move!") ∧
    ((∃ r, FnArg.receiver r ∈ base.sig.inputs ∧ r.reference = true) →
     (∀ r, FnArg.receiver r ∈ base.sig.inputs → r.reference = true) →
      ∃ pids, compute_param_ids cl base.sig.inputs = .ok (true, pids) ∧
        ∀ it f, create_invoke_function base methods si it nm cl = .ok f →
          ∀ c ∈ bodyCalls f.body, c.bound = true) := by
  constructor
  · intro hbv it
    exact create_error (paramIdsGo_byValue cl base.sig.inputs 0 false hbv)
  · intro hrr hall
    obtain ⟨r, hr, _⟩ := hrr
    obtain ⟨pids, hps⟩ := paramIdsGo_no_byValue cl base.sig.inputs 0 false hall
    rw [anyReceiver_of_mem hr] at hps
    simp only [Bool.false_or] at hps
    have hps2 : compute_param_ids cl base.sig.inputs = .ok (true, pids) := hps
    refine ⟨pids, hps2, ?_⟩
    intro it f hok c hcmem
    rw [create_ok_body hps2 hok, bodyCalls_invoke_body] at hcmem
    obtain ⟨m, _, hm⟩ := List.mem_map.mp hcmem
    rw [← hm]
    rfl

/-- C7 witness: the by-value-receiver method is rejected; the `&self` method
is accepted with the method flag set and bound member calls in every
generated body. -/
theorem receiver_handling_w :
    create_invoke_function moveSelfTestMethod testMethods "Tester1"
        InvokeType.All none none =
      .error "invoke_impl cannot be used with methods taking self as move!" ∧
    ∃ pids, compute_param_ids none selfRefTestMethod.sig.inputs = .ok (true, pids) ∧
      ∀ it f, create_invoke_function selfRefTestMethod testMethods "Tester1"
          it none none = .ok f →
        ∀ c ∈ bodyCalls f.body, c.bound = true :=
  ⟨(receiver_handling moveSelfTestMethod testMethods "Tester1" none none).1
      ⟨⟨false, false⟩, by decide, rfl⟩ InvokeType.All,
   (receiver_handling selfRefTestMethod testMethods "Tester1" none none).2
      ⟨⟨true, false⟩, by decide, rfl⟩
      (fun r hr => by
        simp [selfRefTestMethod, mkTestMethod] at hr
        simp [hr])⟩

/-- C8: the emitted metadata constants satisfy the claimed invariants: the
count constant equals the number of members, and the name-list constant has
exactly that length and lists the member identifiers in declaration order. -/
theorem metadata_constants (name : Option String) (methods : List ImplItemMethod) :
    (invoke_impl_metadata name methods).countValue = methods.length ∧
    (invoke_impl_metadata name methods).listValue.length =
      (invoke_impl_metadata name methods).countValue ∧
    (invoke_impl_metadata name methods).listValue =
      methods.map fun m => m.sig.ident := by
  refine ⟨rfl, ?_, rfl⟩
  simp [invoke_impl_metadata]

/-- C9: configuration option keys are matched on their lowercased form — a
key lowercasing to `name` or `clone` behaves exactly like the lowercase key,
and a key lowercasing to neither is rejected with the invalid-argument
panic. -/
theorem config_keys_case_insensitive (k : String) (p : List NestedMeta) :
    (strToLower k = "name" →
      parse_args [⟨k, p⟩] = parse_args [⟨"name", p⟩]) ∧
    (strToLower k = "clone" →
      parse_args [⟨k, p⟩] = parse_args [⟨"clone", p⟩]) ∧
    (strToLower k ≠ "name" → strToLower k ≠ "clone" →
      parse_args [⟨k, p⟩] =
        .error "The only valid arguments to invoke_impl are name and clone!") := by
  have hn : strToLower "name" = "name" := by decide
  have hcl : strToLower "clone" = "clone" := by decide
  refine ⟨fun h => ?_, fun h => ?_, fun h1 h2 => ?_⟩
  · simp [parse_args, parseArgsLoop, h, hn]
  · simp [parse_args, parseArgsLoop, h, hcl]
  · simp [parse_args, parseArgsLoop, h1, h2]

/-- C9 witness: `NAME` and `Clone` are accepted exactly like their lowercase
forms; `config` is rejected. -/
theorem config_keys_case_insensitive_w :
    parse_args [⟨"NAME", [NestedMeta.litStr "x"]⟩] =
      parse_args [⟨"name", [NestedMeta.litStr "x"]⟩] ∧
    parse_args [⟨"Clone", [NestedMeta.litInt 2]⟩] =
      parse_args [⟨"clone", [NestedMeta.litInt 2]⟩] ∧
    parse_args [⟨"config", [NestedMeta.litStr "x"]⟩] =
      .error "The only valid arguments to invoke_impl are name and clone!" :=
  ⟨(config_keys_case_insensitive "NAME" [NestedMeta.litStr "x"]).1 (by decide),
   (config_keys_case_insensitive "Clone" [NestedMeta.litInt 2]).2.1 (by decide),
   (config_keys_case_insensitive "config" [NestedMeta.litStr "x"]).2.2
     (by decide) (by decide)⟩

end InvokeImpl
